import Mathlib

/-!
# Subnet resolution with a fingerprint-keyed cache

A shallow embedding of `pkg/cloudprovider/aws/subnets.go`:

* `getFilters` turns the subnet selector of the constraints into EC2 filters;
* `SubnetProvider.Get` fingerprints the filters, looks the fingerprint up in an
  expiring cache and, on a miss, asks EC2 and stores a non-empty answer.

Conventions of the embedding.

* A Go `string` is a Lean `String` (valid UTF-8 text).
* `*string` values built with `aws.String` are never nil, so they are plain strings.
* `constraints.SubnetSelector` is a Go map.  A `range` over a map visits the entries
  in an order that the language leaves unspecified and that the runtime picks anew
  for every loop, so the selector reaches the code as the list of its entries in the
  order this particular loop visits them.
* The collaborators that are not part of the file (the hash library, `pretty.Concise`,
  the cache constants, the EC2 client, the expiring cache) are parameters or explicit
  state, see `Deps`, `EC2API` and `Cache`.
* Wall-clock time is explicit: every read of the clock is an argument.
-/

namespace Karpenter

/-! ## Go standard library pieces used by the file -/

/-- The predicate unicode.IsSpace of Go on a code point: the Latin-1 cases
`\t \n \v \f \r`, space, U+0085, U+00A0, and the White_Space ranges above Latin-1. -/
def isSpace (c : Char) : Bool :=
  let n := c.toNat
  (9 ≤ n && n ≤ 13) || n == 32 || n == 133 || n == 160 || n == 5760 ||
  (8192 ≤ n && n ≤ 8202) || n == 8232 || n == 8233 || n == 8239 || n == 8287 || n == 12288

/-- The function strings.TrimSpace of Go: the text without its leading and trailing
white space. -/
def TrimSpace (s : String) : String :=
  String.mk ((s.data.dropWhile isSpace).reverse.dropWhile isSpace).reverse

/-- The scanning loop of strings.Split for a one-character separator: `cur` holds
the characters of the piece being read, a separator closes the piece, and the rest
of the text after the last separator is the last piece. -/
def splitLoop (sep : Char) : List Char → List Char → List String
  | [], cur => [String.mk cur]
  | c :: cs, cur =>
    if c = sep then String.mk cur :: splitLoop sep cs []
    else splitLoop sep cs (cur ++ [c])

/-- The call strings.Split(value, ","). -/
def Split (value : String) : List String :=
  splitLoop ',' value.data []

/-- Go errors as far as this file builds and inspects them: a plain error carrying a
message, and the wrapping error that fmt.Errorf builds for the verb `%w`. -/
inductive GoError where
  | errorString (s : String)
  | wrapError (msg : String) (err : GoError)
deriving DecidableEq, Repr

/-- The method Error() of an error value. -/
def GoError.Error : GoError → String
  | .errorString s => s
  | .wrapError msg _ => msg

/-- The function errors.Unwrap. -/
def GoError.Unwrap : GoError → Option GoError
  | .errorString _ => none
  | .wrapError _ err => some err

/-- Insertion of an entry into a list of entries sorted by key (keys compare
character by character, which on valid UTF-8 is the byte order Go sorts by). -/
def insertByKey (e : String × String) : List (String × String) → List (String × String)
  | [] => [e]
  | x :: xs => if e.1.data < x.1.data then e :: x :: xs else x :: insertByKey e xs

/-- The entries of a map sorted by key, as fmt orders them for printing. -/
def sortByKey (m : List (String × String)) : List (String × String) :=
  m.foldr insertByKey []

/-- The verb `%v` of fmt on a map of strings: `map[k1:v1 k2:v2]` with the keys in
increasing order, whatever order the entries are handed over in. -/
def fmtMap (m : List (String × String)) : String :=
  "map[" ++ " ".intercalate ((sortByKey m).map (fun e => e.1 ++ ":" ++ e.2)) ++ "]"

/-- The verb `%s` of fmt on a slice of strings: `[a b c]`. -/
def fmtStrings (xs : List String) : String :=
  "[" ++ " ".intercalate xs ++ "]"

/-! ## EC2 data -/

/-- An ec2.Filter: a name and its values. -/
structure Filter where
  Name : String
  Values : List String
deriving DecidableEq, Repr

/-- An ec2.Subnet, with the two fields this file reads (both are `*string`, so they
may be nil); the record is otherwise passed around untouched. -/
structure Subnet where
  SubnetId : Option String
  AvailabilityZone : Option String
deriving DecidableEq, Repr

/-- The helper aws.StringValue: the empty string for nil. -/
def StringValue : Option String → String
  | none => ""
  | some s => s

/-! ## The filter builder -/

/-- The function splitCommaSeparatedString: the pieces of `value` between commas,
each trimmed. -/
def splitCommaSeparatedString (value : String) : List String :=
  (Split value).foldl (fun result value => result ++ [TrimSpace value]) []

/-- The function getFilters.  The argument lists the entries of
`constraints.SubnetSelector` in the order the `range` loop visits them; every
iteration appends one filter. -/
def getFilters (SubnetSelector : List (String × String)) : List Filter :=
  SubnetSelector.foldl
    (fun filters kv =>
      let key := kv.1
      let value := kv.2
      if key = "subnet-arn" ∨ key = "subnet-id" then
        filters ++ [{ Name := key, Values := splitCommaSeparatedString value }]
      else if value = "*" then
        filters ++ [{ Name := "tag-key", Values := [key] }]
      else
        filters ++ [{ Name := "tag:" ++ key, Values := [value] }])
    []

/-- The function prettySubnets. -/
def prettySubnets (subnets : List Subnet) : List String :=
  subnets.foldl
    (fun names subnet =>
      names ++ [StringValue subnet.SubnetId ++ " (" ++ StringValue subnet.AvailabilityZone ++ ")"])
    []

/-! ## Collaborators that live outside the file -/

/-- What the file takes from elsewhere and treats as given: `Hash` is
hashstructure.Hash(filters, FormatV2, nil), a `uint64` or an error; `Concise` is
pretty.Concise on a filter list; `CacheTTL` and `CacheCleanupInterval` are the
package constants of those names, in nanoseconds. -/
structure Deps where
  Hash : List Filter → Except GoError Nat
  Concise : List Filter → String
  CacheTTL : Int
  CacheCleanupInterval : Int

/-- The EC2 client seen from this file: `calls` records the filter list of every
DescribeSubnets request made so far, and `respond n filters` is what the client
answers to its request number `n` (counted from 0) when asked with `filters`: the
subnets of the output, or an error.  Elements of the output are never nil. -/
structure EC2API where
  respond : Nat → List Filter → Except GoError (List Subnet)
  calls : List (List Filter)

/-- The call s.ec2api.DescribeSubnetsWithContext(ctx, input) with input.Filters =
`Filters`: the answer and the client after the request. -/
def EC2API.DescribeSubnetsWithContext (api : EC2API) (Filters : List Filter) :
    Except GoError (List Subnet) × EC2API :=
  (api.respond api.calls.length Filters, { api with calls := api.calls ++ [Filters] })

/-- A cache item: the stored subnets and the instant (Unix nanoseconds) at which it
expires, 0 standing for never. -/
structure Item where
  Object : List Subnet
  Expiration : Int
deriving DecidableEq, Repr

/-- Modelled from the spec: whether an item of the cache store has expired at the
instant `now` (an expiry of 0 or less never passes). -/
def Item.Expired (item : Item) (now : Int) : Bool :=
  decide (item.Expiration > 0) && decide (now > item.Expiration)

/-- Modelled from the spec: the Clock/Cache Store collaborator (`get(key)`,
`set(key, value, ttl)` and a sweep of expired entries), whose implementation, the
library github.com/patrickmn/go-cache, is not among the sources.  An entry expires
a fixed time after its insertion, whatever reads happen in between. -/
structure Cache where
  defaultExpiration : Int
  items : List (String × Item)
deriving DecidableEq, Repr

/-- The item stored under a key, if any. -/
def Cache.find (k : String) : List (String × Item) → Option Item
  | [] => none
  | (k', item) :: rest => if k' = k then some item else Cache.find k rest

/-- The entries stored under other keys than `k`. -/
def Cache.erase (k : String) : List (String × Item) → List (String × Item)
  | [] => []
  | (k', item) :: rest => if k' = k then Cache.erase k rest else (k', item) :: Cache.erase k rest

/-- Modelled from the spec: the constructor cache.New(defaultExpiration,
cleanupInterval) of the cache store: an empty cache; a
default expiration of 0 means no expiration.  The cleanup interval only paces the
sweep, which is the separate step `Cache.DeleteExpired`. -/
def Cache.New (defaultExpiration _cleanupInterval : Int) : Cache :=
  { defaultExpiration := if defaultExpiration = 0 then -1 else defaultExpiration, items := [] }

/-- Modelled from the spec: the lookup c.Get(k) of the cache store at the instant
`now`: the stored value, unless there is none or
it has expired. -/
def Cache.Get (c : Cache) (now : Int) (k : String) : Option (List Subnet) :=
  match Cache.find k c.items with
  | none => none
  | some item => if item.Expired now then none else some item.Object

/-- Modelled from the spec: the store c.SetDefault(k, x) of the cache store at the
instant `now`: the entry under `k` is replaced
by `x`, expiring the default expiration after `now`. -/
def Cache.SetDefault (c : Cache) (now : Int) (k : String) (x : List Subnet) : Cache :=
  let e : Int := if c.defaultExpiration > 0 then now + c.defaultExpiration else 0
  { c with items := (k, { Object := x, Expiration := e }) :: Cache.erase k c.items }

/-- Modelled from the spec: the sweep c.DeleteExpired() of the cache store at the
instant `now`, run in the background every
cleanup interval. -/
def Cache.DeleteExpired (c : Cache) (now : Int) : Cache :=
  { c with items := c.items.filter (fun kv => !kv.2.Expired now) }

/-! ## The resolver -/

/-- The type SubnetProvider. -/
structure SubnetProvider where
  ec2api : EC2API
  cache : Cache

/-- The function NewSubnetProvider. -/
def NewSubnetProvider (d : Deps) (ec2api : EC2API) : SubnetProvider :=
  { ec2api := ec2api, cache := Cache.New d.CacheTTL d.CacheCleanupInterval }

/-- What a call of Get leaves behind: the returned pair (subnets and a nil error, or
nil and an error), the provider after the call, and the debug messages logged. -/
structure GetResult where
  ret : Except GoError (List Subnet)
  s : SubnetProvider
  debug : List String

/-- The key under which Get caches: fmt.Sprint(hash). -/
def cacheKey (hash : Nat) : String := toString hash

/-- The method SubnetProvider.Get.  `SubnetSelector` lists the entries of
`constraints.SubnetSelector` in the order the loop of getFilters visits them in this
call; `tGet` is the clock when the cache is read and `tSet` the clock when the answer
of EC2 is stored. -/
def SubnetProvider.Get (d : Deps) (s : SubnetProvider) (tGet tSet : Int)
    (SubnetSelector : List (String × String)) : GetResult :=
  let filters := getFilters SubnetSelector
  match d.Hash filters with
  | .error err => { ret := .error err, s := s, debug := [] }
  | .ok hash =>
    match s.cache.Get tGet (cacheKey hash) with
    | some subnets => { ret := .ok subnets, s := s, debug := [] }
    | none =>
      match s.ec2api.DescribeSubnetsWithContext filters with
      | (.error err, api) =>
        { ret := .error (.wrapError
            ("describing subnets " ++ d.Concise filters ++ ", " ++ err.Error) err),
          s := { s with ec2api := api }, debug := [] }
      | (.ok Subnets, api) =>
        if Subnets.length = 0 then
          { ret := .error (.errorString ("no subnets matched selector " ++ fmtMap SubnetSelector)),
            s := { s with ec2api := api }, debug := [] }
        else
          { ret := .ok Subnets,
            s := { ec2api := api, cache := s.cache.SetDefault tSet (cacheKey hash) Subnets },
            debug := ["Discovered subnets: " ++ fmtStrings (prettySubnets Subnets)] }

/-- The filter that one iteration of the loop of getFilters appends for an entry. -/
def filterOf (kv : String × String) : Filter :=
  if kv.1 = "subnet-arn" ∨ kv.1 = "subnet-id" then
    { Name := kv.1, Values := splitCommaSeparatedString kv.2 }
  else if kv.2 = "*" then
    { Name := "tag-key", Values := [kv.1] }
  else
    { Name := "tag:" ++ kv.1, Values := [kv.2] }

/-- One call of Get: the two clock readings and the selector entries in the order
the call visits them. -/
structure Call where
  tGet : Int
  tSet : Int
  SubnetSelector : List (String × String)

/-- A sequence of calls of Get on a provider, one after the other: what each call
returned, and the provider after the last one. -/
def SubnetProvider.GetAll (d : Deps) :
    SubnetProvider → List Call → List (Except GoError (List Subnet)) × SubnetProvider
  | s, [] => ([], s)
  | s, c :: cs =>
    let r := s.Get d c.tGet c.tSet c.SubnetSelector
    let rest := SubnetProvider.GetAll d r.s cs
    (r.ret :: rest.1, rest.2)

/-! ## Sample collaborators, for evaluating the definitions on concrete inputs -/

/-- A sample fingerprint that, like the hash of a slice, depends on the order of the
filters: a base-31 accumulation of the character codes of the filter names. -/
def sampleHash (filters : List Filter) : Except GoError Nat :=
  .ok (filters.foldl (fun h f => (31 * h + (f.Name.data.map Char.toNat).sum) % 2 ^ 64) 7)

/-- Sample dependencies: the sample fingerprint, the filter names as description, a
time-to-live of one minute and a sweep every ten minutes. -/
def sampleDeps : Deps :=
  { Hash := sampleHash
    Concise := fun filters => fmtStrings (filters.map (fun f => f.Name))
    CacheTTL := 60000000000
    CacheCleanupInterval := 600000000000 }

/-- A sample subnet. -/
def sampleSubnet : Subnet :=
  { SubnetId := some "subnet-1", AvailabilityZone := some "us-west-2a" }

/-- A sample EC2 client that has not been called yet and answers every request with
the sample subnet. -/
def sampleEC2 : EC2API :=
  { respond := fun _ _ => .ok [sampleSubnet], calls := [] }

/-- A sample EC2 client that finds no subnet. -/
def emptyEC2 : EC2API :=
  { respond := fun _ _ => .ok [], calls := [] }

/-- A sample EC2 client whose requests fail. -/
def failingEC2 : EC2API :=
  { respond := fun _ _ => .error (.errorString "RequestLimitExceeded"), calls := [] }

/-- A sample EC2 client that answers its request number `n` with the one subnet
`subnet-n`, so that the request an answer came from can be read off the answer. -/
def numberedEC2 : EC2API :=
  { respond := fun n _ =>
      .ok [{ SubnetId := some ("subnet-" ++ toString n), AvailabilityZone := some "us-west-2a" }]
    calls := [] }

/-- Sample dependencies whose fingerprint step fails on every filter list. -/
def failingHashDeps : Deps :=
  { sampleDeps with Hash := fun _ => .error (.errorString "unsupported type") }

/-- The provenance of the cache of a provider: every stored item holds a non-empty
subnet list, and that list is the answer the EC2 client gave to one of the requests in
its record, a request whose filter list has the fingerprint the item is stored under. -/
def CacheFromEC2 (d : Deps) (s : SubnetProvider) : Prop :=
  ∀ k item, (k, item) ∈ s.cache.items →
    item.Object ≠ [] ∧
    ∃ n filters hash, s.ec2api.calls[n]? = some filters ∧ d.Hash filters = .ok hash ∧
      cacheKey hash = k ∧ s.ec2api.respond n filters = .ok item.Object

/-! ## The standard library pieces -/

theorem splitLoop_length (sep : Char) (cs cur : List Char) :
    (splitLoop sep cs cur).length = cs.count sep + 1 := by
  induction cs generalizing cur with
  | nil => simp [splitLoop]
  | cons c cs ih =>
    by_cases h : c = sep
    · simp [splitLoop, h, ih]
    · simp [splitLoop, h, ih, List.count_cons]

theorem splitLoop_no_sep (sep : Char) (cs cur : List Char) (hcur : sep ∉ cur) :
    ∀ p ∈ splitLoop sep cs cur, sep ∉ p.data := by
  induction cs generalizing cur with
  | nil => simpa [splitLoop] using hcur
  | cons c cs ih =>
    by_cases h : c = sep
    · intro p hp
      simp only [splitLoop, h, if_true, List.mem_cons] at hp
      rcases hp with rfl | hp
      · exact hcur
      · exact ih [] (List.not_mem_nil _) p hp
    · intro p hp
      simp only [splitLoop, h, if_false] at hp
      refine ih (cur ++ [c]) ?_ p hp
      simp only [List.mem_append, List.mem_singleton, not_or]
      exact ⟨hcur, fun e => h e.symm⟩

theorem splitLoop_ne_nil (sep : Char) (cs cur : List Char) : splitLoop sep cs cur ≠ [] := by
  intro h
  have := splitLoop_length sep cs cur
  rw [h] at this
  simp at this

theorem splitLoop_join (sep : Char) (cs cur : List Char) :
    List.intercalate [sep] ((splitLoop sep cs cur).map String.data) = cur ++ cs := by
  induction cs generalizing cur with
  | nil => simp [splitLoop, List.intercalate]
  | cons c cs ih =>
    by_cases h : c = sep
    · have ih0 := ih []
      cases hs : splitLoop sep cs [] with
      | nil => exact absurd hs (splitLoop_ne_nil sep cs [])
      | cons p ps =>
        rw [hs] at ih0
        simp only [splitLoop, h, if_true, hs, List.map_cons]
        simp only [List.intercalate, List.map_cons, List.intersperse_cons_cons,
          List.flatten_cons] at ih0 ⊢
        rw [ih0]
        simp
    · simp only [splitLoop, h, if_false]
      rw [ih]
      simp

/-- The pieces of strings.Split(value, ","): one more than there are commas, none
containing a comma, and joined by commas they give the value back. -/
theorem Split_spec (value : String) :
    (Split value).length = value.data.count ',' + 1 ∧
    (∀ p ∈ Split value, ',' ∉ p.data) ∧
    List.intercalate [','] ((Split value).map String.data) = value.data :=
  ⟨splitLoop_length _ _ _, splitLoop_no_sep _ _ _ (List.not_mem_nil _),
   by simpa using splitLoop_join ',' value.data []⟩

/-- The result of strings.TrimSpace: the text is white space, then the result, then
white space, and the result neither starts nor ends with white space. -/
theorem TrimSpace_spec (s : String) :
    (∃ l r : List Char, s.data = l ++ (TrimSpace s).data ++ r ∧
      (∀ c ∈ l, isSpace c = true) ∧ (∀ c ∈ r, isSpace c = true)) ∧
    (∀ c, (TrimSpace s).data.head? = some c → isSpace c = false) ∧
    (∀ c, (TrimSpace s).data.getLast? = some c → isSpace c = false) := by
  have hdata : (TrimSpace s).data
      = ((s.data.dropWhile isSpace).reverse.dropWhile isSpace).reverse := rfl
  refine ⟨⟨s.data.takeWhile isSpace,
    ((s.data.dropWhile isSpace).reverse.takeWhile isSpace).reverse, ?_, ?_, ?_⟩, ?_, ?_⟩
  · rw [hdata, List.append_assoc, ← List.reverse_append, List.takeWhile_append_dropWhile,
      List.reverse_reverse, List.takeWhile_append_dropWhile]
  · intro c hc
    exact List.mem_takeWhile_imp hc
  · intro c hc
    exact List.mem_takeWhile_imp (List.mem_reverse.mp hc)
  · intro c hc
    have hp : List.rdropWhile isSpace (s.data.dropWhile isSpace) <+:
        s.data.dropWhile isSpace := List.rdropWhile_prefix _ _
    obtain ⟨t, ht⟩ := hp
    have hrd : (TrimSpace s).data = List.rdropWhile isSpace (s.data.dropWhile isSpace) := rfl
    rw [hrd] at hc
    cases hrd' : List.rdropWhile isSpace (s.data.dropWhile isSpace) with
    | nil => rw [hrd'] at hc; simp at hc
    | cons x xs =>
      rw [hrd'] at hc ht
      simp only [List.head?_cons, Option.some.injEq] at hc
      subst hc
      have := List.head?_dropWhile_not isSpace s.data
      rw [← ht] at this
      simpa using this
  · intro c hc
    rw [hdata, List.getLast?_reverse] at hc
    have := List.head?_dropWhile_not isSpace (s.data.dropWhile isSpace).reverse
    rw [hc] at this
    exact this
/-! ## The filter builder, entry by entry -/

theorem foldl_append_singleton {α β : Type} (f : α → β) (xs : List α) (acc : List β) :
    xs.foldl (fun r x => r ++ [f x]) acc = acc ++ xs.map f := by
  induction xs generalizing acc with
  | nil => simp
  | cons x xs ih => simp [ih]

theorem splitCommaSeparatedString_eq_map (value : String) :
    splitCommaSeparatedString value = (Split value).map TrimSpace := by
  unfold splitCommaSeparatedString
  rw [foldl_append_singleton]
  simp

theorem getFilters_eq_map (sel : List (String × String)) :
    getFilters sel = sel.map filterOf := by
  have h : ∀ (xs : List (String × String)) (acc : List Filter),
      xs.foldl
        (fun filters kv =>
          let key := kv.1
          let value := kv.2
          if key = "subnet-arn" ∨ key = "subnet-id" then
            filters ++ [{ Name := key, Values := splitCommaSeparatedString value }]
          else if value = "*" then
            filters ++ [{ Name := "tag-key", Values := [key] }]
          else
            filters ++ [{ Name := "tag:" ++ key, Values := [value] }]) acc
        = acc ++ xs.map filterOf := by
    intro xs
    induction xs with
    | nil => intro acc; simp
    | cons x xs ih =>
      intro acc
      simp only [List.foldl_cons, List.map_cons]
      rw [ih]
      unfold filterOf
      split_ifs <;> simp
  unfold getFilters
  rw [h]
  simp

theorem getFilters_middle (pre post : List (String × String)) (kv : String × String) :
    getFilters (pre ++ kv :: post) = getFilters pre ++ filterOf kv :: getFilters post := by
  simp [getFilters_eq_map]

/-- Claim C7 (explicit identifiers).  An entry whose key is "subnet-id" or "subnet-arn"
contributes, at its place in the filter list, exactly one filter named by the key whose
values are the comma-separated pieces of the value, in order, each trimmed; this holds
for every value, "*" included.  The pieces are those of the value: they hold no comma
and, joined by commas, give the value back; trimming a piece removes white space at its
two ends and nothing else, and leaves none there. -/
theorem getFilters_explicit_identifiers (pre post : List (String × String))
    (key value : String) (hkey : key = "subnet-id" ∨ key = "subnet-arn") :
    getFilters (pre ++ (key, value) :: post)
      = getFilters pre ++
          { Name := key, Values := (Split value).map TrimSpace } :: getFilters post ∧
    List.intercalate [','] ((Split value).map String.data) = value.data ∧
    (∀ p ∈ Split value, ',' ∉ p.data) ∧
    (∀ p ∈ Split value,
      (∃ l r : List Char, p.data = l ++ (TrimSpace p).data ++ r ∧
        (∀ c ∈ l, isSpace c = true) ∧ (∀ c ∈ r, isSpace c = true)) ∧
      (∀ c, (TrimSpace p).data.head? = some c → isSpace c = false) ∧
      (∀ c, (TrimSpace p).data.getLast? = some c → isSpace c = false)) := by
  refine ⟨?_, (Split_spec value).2.2, (Split_spec value).2.1, fun p _ => TrimSpace_spec p⟩
  rw [getFilters_middle, ← splitCommaSeparatedString_eq_map]
  have h : filterOf (key, value)
      = { Name := key, Values := splitCommaSeparatedString value } := by
    unfold filterOf
    rcases hkey with h | h <;> simp [h]
  rw [h]

theorem getFilters_explicit_identifiers_witness :
    ("subnet-id" = "subnet-id" ∨ "subnet-id" = "subnet-arn") ∧
    getFilters [("subnet-id", "sn-1, sn-2")]
      = [{ Name := "subnet-id", Values := ["sn-1", "sn-2"] }] ∧
    getFilters [("env", "prod"), ("subnet-arn", "*"), ("subnet-id", " a ,,b")]
      = [{ Name := "tag:env", Values := ["prod"] },
         { Name := "subnet-arn", Values := ["*"] },
         { Name := "subnet-id", Values := ["a", "", "b"] }] :=
  ⟨by decide,
   (getFilters_explicit_identifiers [] [] "subnet-id" "sn-1, sn-2" (by decide)).1.trans
     (by decide),
   (getFilters_explicit_identifiers [("env", "prod")] [("subnet-id", " a ,,b")]
      "subnet-arn" "*" (by decide)).1.trans (by decide)⟩

/-- Claim C8 (wildcard tag).  An entry whose key is neither "subnet-id" nor "subnet-arn" and
whose value is "*" contributes, at its place in the filter list, exactly one filter
named "tag-key" whose only value is the key. -/
theorem getFilters_wildcard_tag (pre post : List (String × String))
    (key value : String) (hid : key ≠ "subnet-id") (harn : key ≠ "subnet-arn")
    (hstar : value = "*") :
    getFilters (pre ++ (key, value) :: post)
      = getFilters pre ++ { Name := "tag-key", Values := [key] } :: getFilters post := by
  rw [getFilters_middle]
  have h : filterOf (key, value) = { Name := "tag-key", Values := [key] } := by
    unfold filterOf
    simp [hid, harn, hstar]
  rw [h]

theorem getFilters_wildcard_tag_witness :
    ("env" ≠ "subnet-id" ∧ "env" ≠ "subnet-arn" ∧ "*" = "*") ∧
    getFilters [("env", "*")] = [{ Name := "tag-key", Values := ["env"] }] :=
  ⟨by decide,
   (getFilters_wildcard_tag [] [] "env" "*" (by decide) (by decide) (by decide)).trans
     (by decide)⟩

/-- Claim C9 (exact tag match).  An entry whose key is neither "subnet-id" nor "subnet-arn"
and whose value is not "*" contributes, at its place in the filter list, exactly one
filter named "tag:" followed by the key, whose only value is the value itself, with
its commas and white space kept. -/
theorem getFilters_exact_tag (pre post : List (String × String))
    (key value : String) (hid : key ≠ "subnet-id") (harn : key ≠ "subnet-arn")
    (hstar : value ≠ "*") :
    getFilters (pre ++ (key, value) :: post)
      = getFilters pre ++ { Name := "tag:" ++ key, Values := [value] } :: getFilters post := by
  rw [getFilters_middle]
  have h : filterOf (key, value) = { Name := "tag:" ++ key, Values := [value] } := by
    unfold filterOf
    simp [hid, harn, hstar]
  rw [h]

theorem getFilters_exact_tag_witness :
    ("env" ≠ "subnet-id" ∧ "env" ≠ "subnet-arn" ∧ "prod" ≠ "*") ∧
    getFilters [("env", "prod")] = [{ Name := "tag:env", Values := ["prod"] }] ∧
    getFilters [("team", " a, b ")] = [{ Name := "tag:team", Values := [" a, b "] }] :=
  ⟨by decide,
   (getFilters_exact_tag [] [] "env" "prod" (by decide) (by decide) (by decide)).trans
     (by decide),
   (getFilters_exact_tag [] [] "team" " a, b " (by decide) (by decide) (by decide)).trans
     (by decide)⟩

/-! ### Facts about the cache -/

theorem Item.Expired_mono (item : Item) (t t' : Int) (h : item.Expired t = true)
    (htt : t ≤ t') : item.Expired t' = true := by
  simp only [Item.Expired, Bool.and_eq_true, decide_eq_true_eq] at h ⊢
  exact ⟨h.1, by omega⟩

theorem Cache.Get_none_mono (c : Cache) (t t' : Int) (k : String)
    (h : c.Get t k = none) (htt : t ≤ t') : c.Get t' k = none := by
  unfold Cache.Get at h ⊢
  cases hf : Cache.find k c.items with
  | none => simp
  | some item =>
    rw [hf] at h
    simp only at h ⊢
    by_cases hx : item.Expired t = true
    · simp [Item.Expired_mono item t t' hx htt]
    · simp [hx] at h

theorem Cache.find_SetDefault_self (c : Cache) (now : Int) (k : String) (x : List Subnet) :
    Cache.find k (c.SetDefault now k x).items
      = some { Object := x,
               Expiration := if c.defaultExpiration > 0 then now + c.defaultExpiration else 0 } := by
  simp [Cache.SetDefault, Cache.find]

theorem Cache.find_erase_of_ne (k k' : String) (items : List (String × Item)) (h : k' ≠ k) :
    Cache.find k' (Cache.erase k items) = Cache.find k' items := by
  induction items with
  | nil => rfl
  | cons x xs ih =>
    obtain ⟨k₀, item⟩ := x
    by_cases h0 : k₀ = k
    · subst h0
      have h1 : ¬ k₀ = k' := fun e => h e.symm
      simp [Cache.erase, Cache.find, h1, ih]
    · by_cases h1 : k₀ = k'
      · subst h1
        simp [Cache.erase, Cache.find, h0]
      · simp [Cache.erase, Cache.find, h0, h1, ih]

theorem Cache.find_SetDefault_of_ne (c : Cache) (now : Int) (k k' : String)
    (x : List Subnet) (h : k' ≠ k) :
    Cache.find k' (c.SetDefault now k x).items = Cache.find k' c.items := by
  have h' : ¬ k = k' := fun e => h e.symm
  simp [Cache.SetDefault, Cache.find, h', Cache.find_erase_of_ne k k' c.items h]

theorem Cache.Get_SetDefault_self (c : Cache) (now t : Int) (k : String) (x : List Subnet)
    (ht : c.defaultExpiration ≤ 0 ∨ t ≤ now + c.defaultExpiration) :
    (c.SetDefault now k x).Get t k = some x := by
  unfold Cache.Get
  rw [Cache.find_SetDefault_self]
  by_cases hd : c.defaultExpiration > 0
  · have ht' : t ≤ now + c.defaultExpiration := by omega
    simp [Item.Expired, hd]
    intro _
    exact ht'
  · simp [Item.Expired, hd]

/-! ## The resolver: what each path of Get computes -/

theorem Get_hit (d : Deps) (s : SubnetProvider) (tGet tSet : Int)
    (sel : List (String × String)) (hash : Nat) (item : Item)
    (hh : d.Hash (getFilters sel) = .ok hash)
    (hf : Cache.find (cacheKey hash) s.cache.items = some item)
    (hx : item.Expired tGet = false) :
    s.Get d tGet tSet sel = { ret := .ok item.Object, s := s, debug := [] } := by
  simp [SubnetProvider.Get, hh, Cache.Get, hf, hx]

theorem Get_miss_ok (d : Deps) (s : SubnetProvider) (tGet tSet : Int)
    (sel : List (String × String)) (hash : Nat) (L : List Subnet)
    (hh : d.Hash (getFilters sel) = .ok hash)
    (hmiss : s.cache.Get tGet (cacheKey hash) = none)
    (hresp : s.ec2api.respond s.ec2api.calls.length (getFilters sel) = .ok L)
    (hL : L ≠ []) :
    s.Get d tGet tSet sel
      = { ret := .ok L,
          s := { ec2api := { s.ec2api with calls := s.ec2api.calls ++ [getFilters sel] },
                 cache := s.cache.SetDefault tSet (cacheKey hash) L },
          debug := ["Discovered subnets: " ++ fmtStrings (prettySubnets L)] } := by
  simp [SubnetProvider.Get, hh, hmiss, EC2API.DescribeSubnetsWithContext, hresp, hL]

theorem Get_miss_empty (d : Deps) (s : SubnetProvider) (tGet tSet : Int)
    (sel : List (String × String)) (hash : Nat)
    (hh : d.Hash (getFilters sel) = .ok hash)
    (hmiss : s.cache.Get tGet (cacheKey hash) = none)
    (hresp : s.ec2api.respond s.ec2api.calls.length (getFilters sel) = .ok []) :
    s.Get d tGet tSet sel
      = { ret := .error (.errorString ("no subnets matched selector " ++ fmtMap sel)),
          s := { ec2api := { s.ec2api with calls := s.ec2api.calls ++ [getFilters sel] },
                 cache := s.cache },
          debug := [] } := by
  simp [SubnetProvider.Get, hh, hmiss, EC2API.DescribeSubnetsWithContext, hresp]

theorem Get_miss_error (d : Deps) (s : SubnetProvider) (tGet tSet : Int)
    (sel : List (String × String)) (hash : Nat) (e : GoError)
    (hh : d.Hash (getFilters sel) = .ok hash)
    (hmiss : s.cache.Get tGet (cacheKey hash) = none)
    (hresp : s.ec2api.respond s.ec2api.calls.length (getFilters sel) = .error e) :
    s.Get d tGet tSet sel
      = { ret := .error (.wrapError
            ("describing subnets " ++ d.Concise (getFilters sel) ++ ", " ++ e.Error) e),
          s := { ec2api := { s.ec2api with calls := s.ec2api.calls ++ [getFilters sel] },
                 cache := s.cache },
          debug := [] } := by
  simp [SubnetProvider.Get, hh, hmiss, EC2API.DescribeSubnetsWithContext, hresp]

/-! ## The resolver, path by path -/

/-- Claim C1 (cache hit).  When the filters of the selector hash to `hash` and the cache holds
under the key of `hash` an item that has not expired when the cache is read, Get returns
the subnets of that item with a nil error, makes no request to EC2 (the client, with its
record of requests, is the same afterwards) and leaves the cache as it was. -/
theorem Get_cache_hit (d : Deps) (s : SubnetProvider) (tGet tSet : Int)
    (sel : List (String × String)) (hash : Nat) (item : Item)
    (hh : d.Hash (getFilters sel) = .ok hash)
    (hf : Cache.find (cacheKey hash) s.cache.items = some item)
    (hx : item.Expired tGet = false) :
    (s.Get d tGet tSet sel).ret = .ok item.Object ∧
    (s.Get d tGet tSet sel).s.ec2api.calls = s.ec2api.calls ∧
    (s.Get d tGet tSet sel).s.cache = s.cache ∧
    (s.Get d tGet tSet sel).s = s := by
  rw [Get_hit d s tGet tSet sel hash item hh hf hx]
  exact ⟨rfl, rfl, rfl, rfl⟩

theorem Get_cache_hit_witness :
    let s : SubnetProvider :=
      { ec2api := sampleEC2
        cache := { defaultExpiration := 60000000000
                   items := [("920", { Object := [sampleSubnet], Expiration := 100 })] } }
    (s.Get sampleDeps 100 101 [("env", "prod")]).ret = .ok [sampleSubnet] ∧
    (s.Get sampleDeps 100 101 [("env", "prod")]).s.ec2api.calls = [] :=
  have h := Get_cache_hit sampleDeps
    { ec2api := sampleEC2
      cache := { defaultExpiration := 60000000000
                 items := [("920", { Object := [sampleSubnet], Expiration := 100 })] } }
    100 101 [("env", "prod")] 920 { Object := [sampleSubnet], Expiration := 100 }
    rfl (by decide) (by decide)
  ⟨h.1, h.2.1⟩

/-- Claim C4 (no match).  On a miss (the cache read finds nothing usable under the key of
the fingerprint), when EC2 answers the request with an empty subnet list, Get returns an
error and no subnets, the cache is exactly what it was, and no later read of the cache
finds anything under that key. -/
theorem Get_no_match (d : Deps) (s : SubnetProvider) (tGet tSet : Int)
    (sel : List (String × String)) (hash : Nat)
    (hh : d.Hash (getFilters sel) = .ok hash)
    (hmiss : s.cache.Get tGet (cacheKey hash) = none)
    (hresp : s.ec2api.respond s.ec2api.calls.length (getFilters sel) = .ok []) :
    (s.Get d tGet tSet sel).ret
      = .error (.errorString ("no subnets matched selector " ++ fmtMap sel)) ∧
    (s.Get d tGet tSet sel).s.cache = s.cache ∧
    ∀ t : Int, tGet ≤ t → (s.Get d tGet tSet sel).s.cache.Get t (cacheKey hash) = none := by
  rw [Get_miss_empty d s tGet tSet sel hash hh hmiss hresp]
  exact ⟨rfl, rfl, fun t ht => Cache.Get_none_mono s.cache tGet t _ hmiss ht⟩

theorem Get_no_match_witness :
    ((NewSubnetProvider sampleDeps emptyEC2).Get sampleDeps 100 101 [("env", "prod")]).ret
      = .error (.errorString "no subnets matched selector map[env:prod]") :=
  (Get_no_match sampleDeps (NewSubnetProvider sampleDeps emptyEC2) 100 101
    [("env", "prod")] 920 rfl (by decide) rfl).1.trans
    (congrArg (fun m => Except.error (GoError.errorString m)) (by decide))

/-- Claim C5 (upstream failure).  On a miss, when the request to EC2 fails with the error `e`,
Get returns no subnets and an error that wraps `e` (unwrapping it gives `e`), whose
message contains the description of the filters that were sent, and the cache is exactly
what it was. -/
theorem Get_upstream_failure (d : Deps) (s : SubnetProvider) (tGet tSet : Int)
    (sel : List (String × String)) (hash : Nat) (e : GoError)
    (hh : d.Hash (getFilters sel) = .ok hash)
    (hmiss : s.cache.Get tGet (cacheKey hash) = none)
    (hresp : s.ec2api.respond s.ec2api.calls.length (getFilters sel) = .error e) :
    ∃ err : GoError,
      (s.Get d tGet tSet sel).ret = .error err ∧
      err.Unwrap = some e ∧
      (∃ before after : String,
        err.Error = before ++ d.Concise (getFilters sel) ++ after) ∧
      (s.Get d tGet tSet sel).s.cache = s.cache := by
  rw [Get_miss_error d s tGet tSet sel hash e hh hmiss hresp]
  refine ⟨_, rfl, rfl, ⟨"describing subnets ", ", " ++ e.Error, ?_⟩, rfl⟩
  simp [GoError.Error, String.append_assoc]

theorem Get_upstream_failure_witness :
    ∃ err : GoError,
      ((NewSubnetProvider sampleDeps failingEC2).Get sampleDeps 100 101
        [("env", "prod")]).ret = .error err ∧
      err.Unwrap = some (.errorString "RequestLimitExceeded") ∧
      (∃ before after : String,
        err.Error = before ++ sampleDeps.Concise (getFilters [("env", "prod")]) ++ after) ∧
      ((NewSubnetProvider sampleDeps failingEC2).Get sampleDeps 100 101
        [("env", "prod")]).s.cache = (NewSubnetProvider sampleDeps failingEC2).cache :=
  Get_upstream_failure sampleDeps (NewSubnetProvider sampleDeps failingEC2) 100 101
    [("env", "prod")] 920 (.errorString "RequestLimitExceeded") rfl (by decide) rfl

/-- Claim C6 (successful miss).  On a miss, when EC2 answers the request with a non-empty
subnet list `L`, Get returns `L` itself with a nil error, and afterwards the cache holds
under the key of the fingerprint an item whose subnets are `L`; a read of the cache
finds `L` there at the instant of the store and as long as the time-to-live of the
cache has not run out (always, when the cache has no expiration). -/
theorem Get_miss_success (d : Deps) (s : SubnetProvider) (tGet tSet : Int)
    (sel : List (String × String)) (hash : Nat) (L : List Subnet)
    (hh : d.Hash (getFilters sel) = .ok hash)
    (hmiss : s.cache.Get tGet (cacheKey hash) = none)
    (hresp : s.ec2api.respond s.ec2api.calls.length (getFilters sel) = .ok L)
    (hL : L ≠ []) :
    (s.Get d tGet tSet sel).ret = .ok L ∧
    (∃ item : Item,
      Cache.find (cacheKey hash) (s.Get d tGet tSet sel).s.cache.items = some item ∧
      item.Object = L) ∧
    (s.Get d tGet tSet sel).s.cache.Get tSet (cacheKey hash) = some L ∧
    ∀ t : Int, (s.cache.defaultExpiration ≤ 0 ∨ t ≤ tSet + s.cache.defaultExpiration) →
      (s.Get d tGet tSet sel).s.cache.Get t (cacheKey hash) = some L := by
  rw [Get_miss_ok d s tGet tSet sel hash L hh hmiss hresp hL]
  refine ⟨rfl, ⟨_, Cache.find_SetDefault_self _ _ _ _, rfl⟩, ?_, ?_⟩
  · apply Cache.Get_SetDefault_self
    by_cases hd : s.cache.defaultExpiration ≤ 0
    · exact Or.inl hd
    · right; omega
  · intro t ht
    exact Cache.Get_SetDefault_self _ _ _ _ _ ht

theorem Get_miss_success_witness :
    ((NewSubnetProvider sampleDeps sampleEC2).Get sampleDeps 100 101
      [("env", "prod")]).ret = .ok [sampleSubnet] ∧
    ((NewSubnetProvider sampleDeps sampleEC2).Get sampleDeps 100 101
      [("env", "prod")]).s.cache.Get 101 "920" = some [sampleSubnet] :=
  have h := Get_miss_success sampleDeps (NewSubnetProvider sampleDeps sampleEC2) 100 101
    [("env", "prod")] 920 [sampleSubnet] rfl (by decide) rfl (by decide)
  ⟨h.1, h.2.2.1⟩

/-! ### Repeated calls -/

theorem Get_defaultExpiration (d : Deps) (s : SubnetProvider) (tGet tSet : Int)
    (sel : List (String × String)) :
    (s.Get d tGet tSet sel).s.cache.defaultExpiration = s.cache.defaultExpiration := by
  unfold SubnetProvider.Get
  simp only
  split
  · rfl
  · split
    · rfl
    · split
      · rfl
      · split <;> rfl

theorem Get_of_cache_Get_some (d : Deps) (s : SubnetProvider) (tGet tSet : Int)
    (sel : List (String × String)) (hash : Nat) (L : List Subnet)
    (hh : d.Hash (getFilters sel) = .ok hash)
    (hget : s.cache.Get tGet (cacheKey hash) = some L) :
    (s.Get d tGet tSet sel).ret = .ok L ∧ (s.Get d tGet tSet sel).s = s := by
  simp [SubnetProvider.Get, hh, hget]

theorem Get_calls_of_cache_Get_none (d : Deps) (s : SubnetProvider) (tGet tSet : Int)
    (sel : List (String × String)) (hash : Nat)
    (hh : d.Hash (getFilters sel) = .ok hash)
    (hget : s.cache.Get tGet (cacheKey hash) = none) :
    (s.Get d tGet tSet sel).s.ec2api.calls = s.ec2api.calls ++ [getFilters sel] := by
  cases hr : s.ec2api.respond s.ec2api.calls.length (getFilters sel) with
  | error e => simp [SubnetProvider.Get, hh, hget, EC2API.DescribeSubnetsWithContext, hr]
  | ok L =>
    by_cases hL : L = []
    · simp [SubnetProvider.Get, hh, hget, EC2API.DescribeSubnetsWithContext, hr, hL]
    · simp [SubnetProvider.Get, hh, hget, EC2API.DescribeSubnetsWithContext, hr, hL]

theorem GetAll_hits (d : Deps) (s : SubnetProvider) (hits : List Call) (hash : Nat)
    (item : Item) (hf : Cache.find (cacheKey hash) s.cache.items = some item)
    (hall : ∀ c ∈ hits, d.Hash (getFilters c.SubnetSelector) = .ok hash ∧
      item.Expired c.tGet = false) :
    SubnetProvider.GetAll d s hits = (hits.map (fun _ => .ok item.Object), s) := by
  induction hits with
  | nil => rfl
  | cons c cs ih =>
    have hc := hall c (List.mem_cons_self _ _)
    have h := Get_hit d s c.tGet c.tSet c.SubnetSelector hash item hc.1 hf hc.2
    have ih' := ih (fun c' hc' => hall c' (List.mem_cons_of_mem _ hc'))
    simp only [SubnetProvider.GetAll, h, ih', List.map_cons]

/-- After a first call that missed and stored `L`, a second call whose filters have the
same fingerprint, made while the item has not expired, is served `L` from the cache
without any request to EC2. -/
theorem Get_repeat_same_fingerprint (d : Deps) (s : SubnetProvider) (t₁ t₁' t₂ t₂' : Int)
    (sel₁ sel₂ : List (String × String)) (hash : Nat) (L : List Subnet)
    (hh₁ : d.Hash (getFilters sel₁) = .ok hash)
    (hh₂ : d.Hash (getFilters sel₂) = .ok hash)
    (hmiss : s.cache.Get t₁ (cacheKey hash) = none)
    (hresp : s.ec2api.respond s.ec2api.calls.length (getFilters sel₁) = .ok L)
    (hL : L ≠ [])
    (hwin : s.cache.defaultExpiration ≤ 0 ∨ t₂ ≤ t₁' + s.cache.defaultExpiration) :
    ((s.Get d t₁ t₁' sel₁).s.Get d t₂ t₂' sel₂).ret = .ok L ∧
    ((s.Get d t₁ t₁' sel₁).s.Get d t₂ t₂' sel₂).s.ec2api.calls
      = s.ec2api.calls ++ [getFilters sel₁] := by
  have hs := Get_miss_ok d s t₁ t₁' sel₁ hash L hh₁ hmiss hresp hL
  have hserve : (s.Get d t₁ t₁' sel₁).s.cache.Get t₂ (cacheKey hash) = some L := by
    rw [hs]
    exact Cache.Get_SetDefault_self _ _ _ _ _ hwin
  have h2 := Get_of_cache_Get_some d (s.Get d t₁ t₁' sel₁).s t₂ t₂' sel₂ hash L hh₂ hserve
  refine ⟨h2.1, ?_⟩
  rw [h2.2, hs]

/-- Claim C3 (cache-key stability), as the code behaves.  The selector with the two entries
env=prod and tier=private can be visited in two orders by the loop of getFilters; the two
visits build the same filters in different orders, so the filter lists differ, and an
order-sensitive fingerprint such as the sample one gives them different cache keys. -/
theorem getFilters_visit_order_changes_filters :
    List.Perm [("env", "prod"), ("tier", "private")] [("tier", "private"), ("env", "prod")] ∧
    getFilters [("env", "prod"), ("tier", "private")]
      = [{ Name := "tag:env", Values := ["prod"] }, { Name := "tag:tier", Values := ["private"] }] ∧
    getFilters [("tier", "private"), ("env", "prod")]
      = [{ Name := "tag:tier", Values := ["private"] }, { Name := "tag:env", Values := ["prod"] }] ∧
    getFilters [("env", "prod"), ("tier", "private")]
      ≠ getFilters [("tier", "private"), ("env", "prod")] ∧
    (sampleHash (getFilters [("env", "prod"), ("tier", "private")])).toOption
      ≠ (sampleHash (getFilters [("tier", "private"), ("env", "prod")])).toOption :=
  ⟨List.Perm.swap _ _ _, by decide, by decide, by decide, by decide⟩

/-- The filters built from two visiting orders of one selector are the same filters up
to their order. -/
theorem getFilters_perm (sel₁ sel₂ : List (String × String)) (h : sel₁.Perm sel₂) :
    (getFilters sel₁).Perm (getFilters sel₂) := by
  rw [getFilters_eq_map, getFilters_eq_map]
  exact h.map filterOf

/-- Claim C2 (repeat lookup), as the code behaves.  Take one selector visited in the order
`sel₁` by a first call and in the order `sel₂` by a second call.  When the two filter
lists get different cache keys and the cache holds nothing under the second key, the
second call misses although the first one succeeded and stored its answer, whatever the
time between them: EC2 is asked twice, and the second call returns what EC2 answers to
the second request. -/
theorem Get_repeat_other_order_asks_again (d : Deps) (s : SubnetProvider)
    (t₁ t₁' t₂ t₂' : Int) (sel₁ sel₂ : List (String × String)) (h₁ h₂ : Nat)
    (L : List Subnet)
    (_hperm : sel₁.Perm sel₂)
    (hh₁ : d.Hash (getFilters sel₁) = .ok h₁)
    (hh₂ : d.Hash (getFilters sel₂) = .ok h₂)
    (hne : cacheKey h₂ ≠ cacheKey h₁)
    (hmiss : s.cache.Get t₁ (cacheKey h₁) = none)
    (habsent : Cache.find (cacheKey h₂) s.cache.items = none)
    (hresp : s.ec2api.respond s.ec2api.calls.length (getFilters sel₁) = .ok L)
    (hL : L ≠ []) :
    (s.Get d t₁ t₁' sel₁).ret = .ok L ∧
    ((s.Get d t₁ t₁' sel₁).s.Get d t₂ t₂' sel₂).s.ec2api.calls
      = s.ec2api.calls ++ [getFilters sel₁, getFilters sel₂] ∧
    ((s.Get d t₁ t₁' sel₁).s.Get d t₂ t₂' sel₂).s.ec2api.calls.length
      = s.ec2api.calls.length + 2 := by
  have hs := Get_miss_ok d s t₁ t₁' sel₁ h₁ L hh₁ hmiss hresp hL
  have hmiss2 : (s.Get d t₁ t₁' sel₁).s.cache.Get t₂ (cacheKey h₂) = none := by
    rw [hs]
    unfold Cache.Get
    simp only
    rw [Cache.find_SetDefault_of_ne _ _ _ _ _ hne, habsent]
  have hcalls : ((s.Get d t₁ t₁' sel₁).s.Get d t₂ t₂' sel₂).s.ec2api.calls
      = s.ec2api.calls ++ [getFilters sel₁, getFilters sel₂] := by
    rw [Get_calls_of_cache_Get_none d _ t₂ t₂' sel₂ h₂ hh₂ hmiss2, hs]
    simp
  refine ⟨by rw [hs], hcalls, ?_⟩
  rw [hcalls]
  simp

theorem Get_repeat_other_order_asks_again_witness :
    ((NewSubnetProvider sampleDeps sampleEC2).Get sampleDeps 100 101
      [("env", "prod"), ("tier", "private")]).ret = .ok [sampleSubnet] ∧
    (((NewSubnetProvider sampleDeps sampleEC2).Get sampleDeps 100 101
      [("env", "prod"), ("tier", "private")]).s.Get sampleDeps 102 103
      [("tier", "private"), ("env", "prod")]).s.ec2api.calls.length = 2 :=
  have h := Get_repeat_other_order_asks_again sampleDeps
    (NewSubnetProvider sampleDeps sampleEC2) 100 101 102 103
    [("env", "prod"), ("tier", "private")] [("tier", "private"), ("env", "prod")]
    29330 32540 [sampleSubnet] (List.Perm.swap _ _ _) rfl rfl (by decide) (by decide)
    (by decide) rfl (by decide)
  ⟨h.1, h.2.2⟩

/-- Absolute time-to-live, fingerprint by fingerprint.  Let a call of Get miss and store
the answer `L` of EC2 at the instant `tSet`, in a cache whose time-to-live is the positive
constant CacheTTL.  Then any number of calls with the same fingerprint that read the
cache no later than `tSet + CacheTTL` are all served `L` and leave the cache, and with it
the expiry of the item, as it was; and whatever the number of those hits, a read of the
cache later than `tSet + CacheTTL` finds nothing under the key, so the next call with
that fingerprint sends a request to EC2 again. -/
theorem Get_absolute_ttl (d : Deps) (s : SubnetProvider) (tGet tSet : Int)
    (sel : List (String × String)) (hash : Nat) (L : List Subnet) (hits : List Call)
    (tLate tLate' : Int) (selLate : List (String × String))
    (hcache : s.cache.defaultExpiration = d.CacheTTL) (hTTL : 0 < d.CacheTTL)
    (hclock : 0 ≤ tSet)
    (hh : d.Hash (getFilters sel) = .ok hash)
    (hmiss : s.cache.Get tGet (cacheKey hash) = none)
    (hresp : s.ec2api.respond s.ec2api.calls.length (getFilters sel) = .ok L)
    (hL : L ≠ [])
    (hhits : ∀ c ∈ hits, d.Hash (getFilters c.SubnetSelector) = .ok hash ∧
      c.tGet ≤ tSet + d.CacheTTL)
    (hhLate : d.Hash (getFilters selLate) = .ok hash)
    (hlate : tSet + d.CacheTTL < tLate) :
    (SubnetProvider.GetAll d (s.Get d tGet tSet sel).s hits).1
      = hits.map (fun _ => .ok L) ∧
    (SubnetProvider.GetAll d (s.Get d tGet tSet sel).s hits).2.cache
      = (s.Get d tGet tSet sel).s.cache ∧
    (SubnetProvider.GetAll d (s.Get d tGet tSet sel).s hits).2.cache.Get tLate
      (cacheKey hash) = none ∧
    ((SubnetProvider.GetAll d (s.Get d tGet tSet sel).s hits).2.Get d tLate tLate'
      selLate).s.ec2api.calls
      = (SubnetProvider.GetAll d (s.Get d tGet tSet sel).s hits).2.ec2api.calls
          ++ [getFilters selLate] := by
  have hr : (s.Get d tGet tSet sel).s.cache = s.cache.SetDefault tSet (cacheKey hash) L := by
    rw [Get_miss_ok d s tGet tSet sel hash L hh hmiss hresp hL]
  have hpos : s.cache.defaultExpiration > 0 := by rw [hcache]; exact hTTL
  have hf : Cache.find (cacheKey hash) (s.Get d tGet tSet sel).s.cache.items
      = some { Object := L, Expiration := tSet + d.CacheTTL } := by
    rw [hr, Cache.find_SetDefault_self, if_pos hpos, hcache]
  have hall : ∀ c ∈ hits, d.Hash (getFilters c.SubnetSelector) = .ok hash ∧
      ({ Object := L, Expiration := tSet + d.CacheTTL } : Item).Expired c.tGet = false := by
    intro c hc
    refine ⟨(hhits c hc).1, ?_⟩
    have := (hhits c hc).2
    simp only [Item.Expired, Bool.and_eq_false_imp, decide_eq_true_eq, decide_eq_false_iff_not]
    intro _
    omega
  have hrun := GetAll_hits d (s.Get d tGet tSet sel).s hits hash _ hf hall
  have hnone : (s.Get d tGet tSet sel).s.cache.Get tLate (cacheKey hash) = none := by
    unfold Cache.Get
    rw [hf]
    have h1 : tSet + d.CacheTTL > 0 := by omega
    simp [Item.Expired, h1, hlate]
  rw [hrun]
  exact ⟨rfl, rfl, hnone, Get_calls_of_cache_Get_none d _ tLate tLate' selLate hash hhLate hnone⟩

theorem Get_absolute_ttl_witness :
    (SubnetProvider.GetAll sampleDeps
      ((NewSubnetProvider sampleDeps sampleEC2).Get sampleDeps 100 101 [("env", "prod")]).s
      [{ tGet := 200, tSet := 201, SubnetSelector := [("env", "prod")] },
       { tGet := 60000000101, tSet := 60000000102, SubnetSelector := [("env", "prod")] }]).1
      = [.ok [sampleSubnet], .ok [sampleSubnet]] ∧
    (SubnetProvider.GetAll sampleDeps
      ((NewSubnetProvider sampleDeps sampleEC2).Get sampleDeps 100 101 [("env", "prod")]).s
      [{ tGet := 200, tSet := 201, SubnetSelector := [("env", "prod")] },
       { tGet := 60000000101, tSet := 60000000102, SubnetSelector := [("env", "prod")] }]
      ).2.cache.Get 60000000102 "920" = none :=
  have h := Get_absolute_ttl sampleDeps (NewSubnetProvider sampleDeps sampleEC2) 100 101
    [("env", "prod")] 920 [sampleSubnet]
    [{ tGet := 200, tSet := 201, SubnetSelector := [("env", "prod")] },
     { tGet := 60000000101, tSet := 60000000102, SubnetSelector := [("env", "prod")] }]
    60000000102 60000000103 [("env", "prod")]
    (by decide) (by decide) (by decide) rfl (by decide) rfl (by decide)
    (by
      intro c hc
      simp only [List.mem_cons, List.mem_singleton, List.not_mem_nil, or_false] at hc
      rcases hc with rfl | rfl
      · exact ⟨rfl, by decide⟩
      · exact ⟨rfl, by decide⟩)
    rfl (by decide)
  ⟨h.1, h.2.2.1⟩

/-! ## Failure of the fingerprint, and the single request -/

/-- Claim C12 (fingerprint failure).  When hashing the filters fails with the error `e`,
Get returns `e` itself and no subnets, sends no request to EC2 (the client and its record
of requests are the same afterwards) and leaves the cache as it was; the outcome is the
same whatever provider, cache contents and clock readings the call is made with, so
nothing read from the cache enters it. -/
theorem Get_fingerprint_failure (d : Deps) (s : SubnetProvider) (tGet tSet : Int)
    (sel : List (String × String)) (e : GoError)
    (hh : d.Hash (getFilters sel) = .error e) :
    (s.Get d tGet tSet sel).ret = .error e ∧
    (s.Get d tGet tSet sel).s.ec2api.calls = s.ec2api.calls ∧
    (s.Get d tGet tSet sel).s.cache = s.cache ∧
    (s.Get d tGet tSet sel).s = s ∧
    (s.Get d tGet tSet sel).debug = [] ∧
    ∀ (s' : SubnetProvider) (tGet' tSet' : Int),
      (s'.Get d tGet' tSet' sel).ret = .error e ∧ (s'.Get d tGet' tSet' sel).s = s' := by
  have h : ∀ (s' : SubnetProvider) (tGet' tSet' : Int),
      s'.Get d tGet' tSet' sel = { ret := .error e, s := s', debug := [] } := by
    intro s' tGet' tSet'
    simp [SubnetProvider.Get, hh]
  rw [h s tGet tSet]
  refine ⟨rfl, rfl, rfl, rfl, rfl, fun s' tGet' tSet' => ?_⟩
  rw [h s' tGet' tSet']
  exact ⟨rfl, rfl⟩

theorem Get_fingerprint_failure_witness :
    ((NewSubnetProvider failingHashDeps sampleEC2).Get failingHashDeps 100 101
      [("env", "prod")]).ret = .error (.errorString "unsupported type") ∧
    ((NewSubnetProvider failingHashDeps sampleEC2).Get failingHashDeps 100 101
      [("env", "prod")]).s.ec2api.calls = [] :=
  have h := Get_fingerprint_failure failingHashDeps
    (NewSubnetProvider failingHashDeps sampleEC2) 100 101 [("env", "prod")]
    (.errorString "unsupported type") rfl
  ⟨h.1, h.2.1⟩

theorem Get_calls_extend (d : Deps) (s : SubnetProvider) (tGet tSet : Int)
    (sel : List (String × String)) :
    (s.Get d tGet tSet sel).s.ec2api.calls = s.ec2api.calls ∨
    (s.Get d tGet tSet sel).s.ec2api.calls = s.ec2api.calls ++ [getFilters sel] := by
  cases hh : d.Hash (getFilters sel) with
  | error e => left; simp [SubnetProvider.Get, hh]
  | ok hash =>
    cases hg : s.cache.Get tGet (cacheKey hash) with
    | some L => left; rw [(Get_of_cache_Get_some d s tGet tSet sel hash L hh hg).2]
    | none => right; exact Get_calls_of_cache_Get_none d s tGet tSet sel hash hh hg

theorem Get_respond (d : Deps) (s : SubnetProvider) (tGet tSet : Int)
    (sel : List (String × String)) :
    (s.Get d tGet tSet sel).s.ec2api.respond = s.ec2api.respond := by
  cases hh : d.Hash (getFilters sel) with
  | error e => simp [SubnetProvider.Get, hh]
  | ok hash =>
    cases hg : s.cache.Get tGet (cacheKey hash) with
    | some L => rw [(Get_of_cache_Get_some d s tGet tSet sel hash L hh hg).2]
    | none =>
      cases hr : s.ec2api.respond s.ec2api.calls.length (getFilters sel) with
      | error e => rw [Get_miss_error d s tGet tSet sel hash e hh hg hr]
      | ok L =>
        by_cases hL : L = []
        · subst hL
          rw [Get_miss_empty d s tGet tSet sel hash hh hg hr]
        · rw [Get_miss_ok d s tGet tSet sel hash L hh hg hr hL]

/-- Claim C14 (single request, no retry).  On a miss, whatever EC2 answers (subnets, an
empty list or an error), the record of requests grows by exactly one request, made with
the very filter list getFilters built and the fingerprint was taken of; and no call of
Get, on any provider and with any selector, adds more than one request to the record. -/
theorem Get_single_request (d : Deps) (s : SubnetProvider) (tGet tSet : Int)
    (sel : List (String × String)) (hash : Nat)
    (hh : d.Hash (getFilters sel) = .ok hash)
    (hmiss : s.cache.Get tGet (cacheKey hash) = none) :
    (s.Get d tGet tSet sel).s.ec2api.calls = s.ec2api.calls ++ [getFilters sel] ∧
    (s.Get d tGet tSet sel).s.ec2api.calls.length = s.ec2api.calls.length + 1 ∧
    ∀ (s' : SubnetProvider) (tGet' tSet' : Int) (sel' : List (String × String)),
      ∃ extra : List (List Filter),
        (s'.Get d tGet' tSet' sel').s.ec2api.calls = s'.ec2api.calls ++ extra ∧
        extra.length ≤ 1 := by
  have h := Get_calls_of_cache_Get_none d s tGet tSet sel hash hh hmiss
  refine ⟨h, by rw [h]; simp, fun s' tGet' tSet' sel' => ?_⟩
  rcases Get_calls_extend d s' tGet' tSet' sel' with h' | h'
  · exact ⟨[], by rw [h']; simp, by simp⟩
  · exact ⟨[getFilters sel'], h', by simp⟩

theorem Get_single_request_witness :
    ((NewSubnetProvider sampleDeps failingEC2).Get sampleDeps 100 101
      [("env", "prod")]).s.ec2api.calls = [[{ Name := "tag:env", Values := ["prod"] }]] ∧
    ((NewSubnetProvider sampleDeps failingEC2).Get sampleDeps 100 101
      [("env", "prod")]).s.ec2api.calls.length = 1 :=
  have h := Get_single_request sampleDeps (NewSubnetProvider sampleDeps failingEC2) 100 101
    [("env", "prod")] 920 rfl (by decide)
  ⟨h.1.trans (by decide), h.2.1⟩

/-! ## The filter builder as a whole -/

/-- Claim C13 (no deduplication or merging).  For every sequence of selector entries
getFilters is the entry-by-entry image of the rule of one loop iteration: it returns one
filter per entry, in the order of the entries, the filter at a position depends on the
entry at that position only, the output is as long as the input, the empty selector
gives no filter, the filters of a concatenation are the concatenation of the filters,
and an entry that occurs twice gives its filter twice. -/
theorem getFilters_one_filter_per_entry (sel : List (String × String)) :
    getFilters sel = sel.map filterOf ∧
    (getFilters sel).length = sel.length ∧
    (∀ i : Nat, (getFilters sel)[i]? = (sel[i]?).map filterOf) ∧
    (∀ (sel' : List (String × String)) (i : Nat), sel[i]? = sel'[i]? →
      (getFilters sel)[i]? = (getFilters sel')[i]?) ∧
    getFilters [] = [] ∧
    (∀ sel' : List (String × String),
      getFilters (sel ++ sel') = getFilters sel ++ getFilters sel') ∧
    (∀ e : String × String, getFilters (e :: e :: sel) = filterOf e :: filterOf e :: getFilters sel) := by
  refine ⟨getFilters_eq_map sel, ?_, ?_, ?_, rfl, ?_, ?_⟩
  · rw [getFilters_eq_map, List.length_map]
  · intro i
    rw [getFilters_eq_map, List.getElem?_map]
  · intro sel' i h
    rw [getFilters_eq_map, getFilters_eq_map, List.getElem?_map, List.getElem?_map, h]
  · intro sel'
    simp [getFilters_eq_map]
  · intro e
    simp [getFilters_eq_map]

theorem getFilters_one_filter_per_entry_witness :
    (getFilters [("env", "*"), ("env", "*"), ("subnet-id", "a,b")]).length = 3 ∧
    getFilters [("env", "*"), ("env", "*"), ("subnet-id", "a,b")]
      = [{ Name := "tag-key", Values := ["env"] }, { Name := "tag-key", Values := ["env"] },
         { Name := "subnet-id", Values := ["a", "b"] }] :=
  ⟨(getFilters_one_filter_per_entry [("env", "*"), ("env", "*"), ("subnet-id", "a,b")]).2.1,
   ((getFilters_one_filter_per_entry [("subnet-id", "a,b")]).2.2.2.2.2.2 ("env", "*")).trans
     (by decide)⟩

theorem TrimSpace_of_blank (p : String) (h : ∀ c ∈ p.data, isSpace c = true) :
    TrimSpace p = "" := by
  have h0 : p.data.dropWhile isSpace = [] := List.dropWhile_eq_nil_iff.mpr h
  unfold TrimSpace
  rw [h0]
  rfl

theorem TrimSpace_no_new_char (p : String) (c : Char) (h : c ∈ (TrimSpace p).data) :
    c ∈ p.data := by
  obtain ⟨⟨l, r, hp, _, _⟩, _, _⟩ := TrimSpace_spec p
  rw [hp]
  simp [h]

/-- Claim C16 (comma splitting keeps empty pieces).  For every value,
splitCommaSeparatedString returns one element more than the value has commas, hence
never an empty list; no element holds a comma, starts with white space or ends with
white space; a piece that is empty or all white space stays in the list, at its place,
as the empty string.  So "" gives [""], "a,,b" gives ["a", "", "b"], and a "subnet-id"
entry with an empty value gives a filter with the empty string as its one value. -/
theorem splitCommaSeparatedString_keeps_empty_pieces (value : String) :
    (splitCommaSeparatedString value).length = value.data.count ',' + 1 ∧
    splitCommaSeparatedString value ≠ [] ∧
    (∀ p ∈ splitCommaSeparatedString value,
      ',' ∉ p.data ∧
      (∀ c, p.data.head? = some c → isSpace c = false) ∧
      (∀ c, p.data.getLast? = some c → isSpace c = false)) ∧
    (∀ (i : Nat) (p : String), (Split value)[i]? = some p →
      (∀ c ∈ p.data, isSpace c = true) →
      (splitCommaSeparatedString value)[i]? = some "") ∧
    splitCommaSeparatedString "" = [""] ∧
    splitCommaSeparatedString "a,,b" = ["a", "", "b"] ∧
    splitCommaSeparatedString " a , ,b " = ["a", "", "b"] ∧
    getFilters [("subnet-id", "")] = [{ Name := "subnet-id", Values := [""] }] := by
  have hlen : (splitCommaSeparatedString value).length = value.data.count ',' + 1 := by
    rw [splitCommaSeparatedString_eq_map, List.length_map]
    exact (Split_spec value).1
  refine ⟨hlen, ?_, ?_, ?_, by decide, by decide, by decide, by decide⟩
  · intro h
    rw [h] at hlen
    simp at hlen
  · intro p hp
    rw [splitCommaSeparatedString_eq_map, List.mem_map] at hp
    obtain ⟨q, hq, rfl⟩ := hp
    refine ⟨fun hc => (Split_spec value).2.1 q hq (TrimSpace_no_new_char q _ hc),
      (TrimSpace_spec q).2.1, (TrimSpace_spec q).2.2⟩
  · intro i p hi hblank
    rw [splitCommaSeparatedString_eq_map, List.getElem?_map, hi]
    simp [TrimSpace_of_blank p hblank]

theorem splitCommaSeparatedString_keeps_empty_pieces_witness :
    (splitCommaSeparatedString "a,,b").length = 3 ∧
    (splitCommaSeparatedString ",").length = 2 :=
  ⟨(splitCommaSeparatedString_keeps_empty_pieces "a,,b").1.trans (by decide),
   (splitCommaSeparatedString_keeps_empty_pieces ",").1.trans (by decide)⟩

/-! ## What a call does to the provider -/

theorem Get_state_cases (d : Deps) (s : SubnetProvider) (tGet tSet : Int)
    (sel : List (String × String)) :
    (s.Get d tGet tSet sel).s = s ∨
    (s.Get d tGet tSet sel).s
      = { ec2api := { s.ec2api with calls := s.ec2api.calls ++ [getFilters sel] },
          cache := s.cache } ∨
    ∃ (hash : Nat) (L : List Subnet),
      d.Hash (getFilters sel) = .ok hash ∧
      s.ec2api.respond s.ec2api.calls.length (getFilters sel) = .ok L ∧ L ≠ [] ∧
      (s.Get d tGet tSet sel).ret = .ok L ∧
      (s.Get d tGet tSet sel).s
        = { ec2api := { s.ec2api with calls := s.ec2api.calls ++ [getFilters sel] },
            cache := s.cache.SetDefault tSet (cacheKey hash) L } := by
  cases hh : d.Hash (getFilters sel) with
  | error e => left; simp [SubnetProvider.Get, hh]
  | ok hash =>
    cases hg : s.cache.Get tGet (cacheKey hash) with
    | some L => left; exact (Get_of_cache_Get_some d s tGet tSet sel hash L hh hg).2
    | none =>
      right
      cases hr : s.ec2api.respond s.ec2api.calls.length (getFilters sel) with
      | error e => left; rw [Get_miss_error d s tGet tSet sel hash e hh hg hr]
      | ok L =>
        by_cases hL : L = []
        · subst hL
          left
          rw [Get_miss_empty d s tGet tSet sel hash hh hg hr]
        · right
          refine ⟨hash, L, rfl, rfl, hL, ?_, ?_⟩ <;>
            rw [Get_miss_ok d s tGet tSet sel hash L hh hg hr hL]

theorem Get_find_other_key (d : Deps) (s : SubnetProvider) (tGet tSet : Int)
    (sel : List (String × String)) (k : String)
    (hk : ∀ hash, d.Hash (getFilters sel) = .ok hash → k ≠ cacheKey hash) :
    Cache.find k (s.Get d tGet tSet sel).s.cache.items = Cache.find k s.cache.items := by
  rcases Get_state_cases d s tGet tSet sel with h | h | ⟨hash, L, hh, _, _, _, h⟩
  · rw [h]
  · rw [h]
  · rw [h]
    exact Cache.find_SetDefault_of_ne s.cache tSet (cacheKey hash) k L (hk hash hh)

/-- Claim C11 (isolation between fingerprints).  Whatever a call of Get ends with (a
hit, subnets from EC2, an empty answer, an error of EC2 or a failure of the hash), the
item stored under any cache key other than the key of that call's own fingerprint is the
same after the call as before, a read of the cache under such a key gives the same
answer at every instant, and a later call of Get whose fingerprint has that key is
served the subnets that were cached there before. -/
theorem Get_isolation (d : Deps) (s : SubnetProvider) (tGet tSet : Int)
    (sel : List (String × String)) (k : String)
    (hk : ∀ hash, d.Hash (getFilters sel) = .ok hash → k ≠ cacheKey hash) :
    Cache.find k (s.Get d tGet tSet sel).s.cache.items = Cache.find k s.cache.items ∧
    (∀ t : Int, (s.Get d tGet tSet sel).s.cache.Get t k = s.cache.Get t k) ∧
    (∀ (sel' : List (String × String)) (hash' : Nat) (L : List Subnet) (t t' : Int),
      d.Hash (getFilters sel') = .ok hash' → cacheKey hash' = k →
      s.cache.Get t k = some L →
      ((s.Get d tGet tSet sel).s.Get d t t' sel').ret = .ok L) := by
  have hfind := Get_find_other_key d s tGet tSet sel k hk
  have hget : ∀ t : Int, (s.Get d tGet tSet sel).s.cache.Get t k = s.cache.Get t k := by
    intro t
    unfold Cache.Get
    rw [hfind]
  refine ⟨hfind, hget, ?_⟩
  intro sel' hash' L t t' hh' hkey hL
  have h1 : (s.Get d tGet tSet sel).s.cache.Get t (cacheKey hash') = some L := by
    rw [hkey, hget t, hL]
  exact (Get_of_cache_Get_some d _ t t' sel' hash' L hh' h1).1

theorem Get_isolation_witness :
    Cache.find "920"
      (({ ec2api := sampleEC2
          cache := { defaultExpiration := 60000000000
                     items := [("920", { Object := [sampleSubnet], Expiration := 500 })] } }
        : SubnetProvider).Get sampleDeps 100 101 [("tier", "private")]).s.cache.items
      = some { Object := [sampleSubnet], Expiration := 500 } :=
  (Get_isolation sampleDeps
    { ec2api := sampleEC2
      cache := { defaultExpiration := 60000000000
                 items := [("920", { Object := [sampleSubnet], Expiration := 500 })] } }
    100 101 [("tier", "private")] "920"
    (by
      intro hash h
      have h' : (Except.ok 1027 : Except GoError Nat) = Except.ok hash := h
      cases h'
      decide)).1.trans (by decide)

/-! ## The invariant of the cache -/

theorem Cache.mem_of_find (k : String) (item : Item) (items : List (String × Item))
    (h : Cache.find k items = some item) : (k, item) ∈ items := by
  induction items with
  | nil => simp [Cache.find] at h
  | cons x xs ih =>
    obtain ⟨k₀, item₀⟩ := x
    by_cases h0 : k₀ = k
    · subst h0
      simp only [Cache.find, if_true, Option.some.injEq] at h
      subst h
      exact List.mem_cons_self _ _
    · simp only [Cache.find, h0, if_false] at h
      exact List.mem_cons_of_mem _ (ih h)

theorem Cache.mem_of_mem_erase (k : String) (e : String × Item)
    (items : List (String × Item)) (h : e ∈ Cache.erase k items) : e ∈ items := by
  induction items with
  | nil => simp [Cache.erase] at h
  | cons x xs ih =>
    obtain ⟨k₀, item₀⟩ := x
    by_cases h0 : k₀ = k
    · simp only [Cache.erase, h0, if_true] at h
      exact List.mem_cons_of_mem _ (ih h)
    · simp only [Cache.erase, h0, if_false, List.mem_cons] at h
      rcases h with h | h
      · exact h ▸ List.mem_cons_self _ _
      · exact List.mem_cons_of_mem _ (ih h)

theorem CacheFromEC2_New (d : Deps) (ec2api : EC2API) :
    CacheFromEC2 d (NewSubnetProvider d ec2api) := by
  intro k item h
  simp [NewSubnetProvider, Cache.New] at h

theorem CacheFromEC2_more_calls (d : Deps) (s : SubnetProvider) (filters : List Filter)
    (cache : Cache) (hs : CacheFromEC2 d s)
    (hsub : ∀ e ∈ cache.items, e ∈ s.cache.items) :
    CacheFromEC2 d
      { ec2api := { s.ec2api with calls := s.ec2api.calls ++ [filters] }, cache := cache } := by
  intro k item hmem
  obtain ⟨hne, n, fs, hash, hn, hh, hk, hr⟩ := hs k item (hsub _ hmem)
  refine ⟨hne, n, fs, hash, ?_, hh, hk, hr⟩
  have hlt : n < s.ec2api.calls.length := (List.getElem?_eq_some.mp hn).1
  show (s.ec2api.calls ++ [filters])[n]? = some fs
  rw [List.getElem?_append_left hlt, hn]

theorem CacheFromEC2_Get (d : Deps) (s : SubnetProvider) (tGet tSet : Int)
    (sel : List (String × String)) (hs : CacheFromEC2 d s) :
    CacheFromEC2 d (s.Get d tGet tSet sel).s := by
  rcases Get_state_cases d s tGet tSet sel with h | h | ⟨hash, L, hh, hr, hL, _, h⟩
  · rw [h]; exact hs
  · rw [h]
    exact CacheFromEC2_more_calls d s _ s.cache hs (fun _ he => he)
  · rw [h]
    intro k item hmem
    have hmem' : (k, item) = (cacheKey hash,
          ({ Object := L,
             Expiration := if s.cache.defaultExpiration > 0
               then tSet + s.cache.defaultExpiration else 0 } : Item)) ∨
        (k, item) ∈ Cache.erase (cacheKey hash) s.cache.items := by
      simpa [Cache.SetDefault] using hmem
    rcases hmem' with heq | hold
    · obtain ⟨rfl, rfl⟩ := Prod.mk.inj heq
      refine ⟨hL, s.ec2api.calls.length, getFilters sel, hash, ?_, hh, rfl, hr⟩
      exact List.getElem?_concat_length _ _
    · exact CacheFromEC2_more_calls d s _ { s.cache with items := Cache.erase (cacheKey hash) s.cache.items } hs
        (fun e he => Cache.mem_of_mem_erase _ e _ he) k item hold

theorem CacheFromEC2_DeleteExpired (d : Deps) (s : SubnetProvider) (now : Int)
    (hs : CacheFromEC2 d s) :
    CacheFromEC2 d { s with cache := s.cache.DeleteExpired now } := by
  intro k item hmem
  exact hs k item (List.mem_of_mem_filter hmem)

theorem Get_ok_nonempty (d : Deps) (s : SubnetProvider) (tGet tSet : Int)
    (sel : List (String × String)) (L : List Subnet) (hs : CacheFromEC2 d s)
    (hret : (s.Get d tGet tSet sel).ret = .ok L) : L ≠ [] := by
  cases hh : d.Hash (getFilters sel) with
  | error e => simp [SubnetProvider.Get, hh] at hret
  | ok hash =>
    cases hg : s.cache.Get tGet (cacheKey hash) with
    | some L' =>
      rw [(Get_of_cache_Get_some d s tGet tSet sel hash L' hh hg).1] at hret
      cases hret
      unfold Cache.Get at hg
      cases hf : Cache.find (cacheKey hash) s.cache.items with
      | none => simp [hf] at hg
      | some item =>
        rw [hf] at hg
        by_cases hx : item.Expired tGet = true
        · simp [hx] at hg
        · simp only [hx, Bool.false_eq_true, if_false, Option.some.injEq] at hg
          rw [← hg]
          exact (hs _ item (Cache.mem_of_find _ _ _ hf)).1
    | none =>
      cases hr : s.ec2api.respond s.ec2api.calls.length (getFilters sel) with
      | error e =>
        rw [Get_miss_error d s tGet tSet sel hash e hh hg hr] at hret
        cases hret
      | ok L' =>
        by_cases hL : L' = []
        · subst hL
          rw [Get_miss_empty d s tGet tSet sel hash hh hg hr] at hret
          cases hret
        · rw [Get_miss_ok d s tGet tSet sel hash L' hh hg hr hL] at hret
          cases hret
          exact hL

theorem GetAll_invariant (d : Deps) (s : SubnetProvider) (calls : List Call)
    (hs : CacheFromEC2 d s) :
    CacheFromEC2 d (SubnetProvider.GetAll d s calls).2 ∧
    ∀ r ∈ (SubnetProvider.GetAll d s calls).1, ∀ L : List Subnet, r = .ok L → L ≠ [] := by
  induction calls generalizing s with
  | nil => exact ⟨hs, fun r hr => by simp [SubnetProvider.GetAll] at hr⟩
  | cons c cs ih =>
    have ih' := ih (s.Get d c.tGet c.tSet c.SubnetSelector).s
      (CacheFromEC2_Get d s c.tGet c.tSet c.SubnetSelector hs)
    refine ⟨ih'.1, ?_⟩
    intro r hr L hL
    simp only [SubnetProvider.GetAll, List.mem_cons] at hr
    rcases hr with hr | hr
    · subst hr
      exact Get_ok_nonempty d s c.tGet c.tSet c.SubnetSelector L hs hL
    · exact ih'.2 r hr L hL

/-- Claim C15 (non-empty results).  Start from NewSubnetProvider and make any sequence of
calls of Get, with any selectors, clock readings and answers of EC2.  In the provider
that results, every item of the cache holds a non-empty subnet list, and that list is
what the EC2 client answered to one of its recorded requests, whose filter list has the
fingerprint the item is stored under.  And every call of the sequence that returned a nil
error returned a non-empty subnet list, whether it was served from the cache or by
EC2. -/
theorem Get_nonempty_invariant (d : Deps) (ec2api : EC2API) (calls : List Call) :
    (∀ k item, (k, item) ∈
        (SubnetProvider.GetAll d (NewSubnetProvider d ec2api) calls).2.cache.items →
      item.Object ≠ [] ∧
      ∃ n filters hash,
        (SubnetProvider.GetAll d (NewSubnetProvider d ec2api) calls).2.ec2api.calls[n]?
          = some filters ∧
        d.Hash filters = .ok hash ∧ cacheKey hash = k ∧
        (SubnetProvider.GetAll d (NewSubnetProvider d ec2api) calls).2.ec2api.respond
          n filters = .ok item.Object) ∧
    (∀ r ∈ (SubnetProvider.GetAll d (NewSubnetProvider d ec2api) calls).1,
      ∀ L : List Subnet, r = .ok L → L ≠ []) :=
  GetAll_invariant d (NewSubnetProvider d ec2api) calls (CacheFromEC2_New d ec2api)

theorem Get_nonempty_invariant_witness :
    (SubnetProvider.GetAll sampleDeps (NewSubnetProvider sampleDeps sampleEC2)
      [{ tGet := 100, tSet := 101, SubnetSelector := [("env", "prod")] },
       { tGet := 102, tSet := 103, SubnetSelector := [("env", "prod")] }]).1
      = [.ok [sampleSubnet], .ok [sampleSubnet]] ∧
    [sampleSubnet] ≠ [] :=
  ⟨rfl,
   (Get_nonempty_invariant sampleDeps sampleEC2
      [{ tGet := 100, tSet := 101, SubnetSelector := [("env", "prod")] },
       { tGet := 102, tSet := 103, SubnetSelector := [("env", "prod")] }]).2
      (.ok [sampleSubnet]) (List.Mem.head _) [sampleSubnet] rfl⟩

/-! ## The time-to-live and the visiting order -/

/-- Claim C10 (absolute time-to-live), as the code behaves.  Take one selector visited
in the order `sel₁` by a first call, which misses and stores the answer `L₁` at the
instant `t₁'`, and in the order `sel₂` by a second call, whose filter list gets another
cache key, so that it misses as well and stores the answer `L₂` at the instant `t₂'`.
A third call for the selector, visited as `sel₂`, that reads the cache later than
`t₁' + CacheTTL` but no later than `t₂' + CacheTTL` finds the item stored first expired
(it is never served past its time-to-live) and yet sends no request to EC2: it is served
`L₂` from the cache, and the record of requests still holds the two earlier requests
only. -/
theorem Get_after_ttl_other_order_served_from_cache (d : Deps) (s : SubnetProvider)
    (t₁ t₁' t₂ t₂' t₃ t₃' : Int) (sel₁ sel₂ : List (String × String)) (h₁ h₂ : Nat)
    (L₁ L₂ : List Subnet)
    (_hperm : sel₁.Perm sel₂)
    (hcache : s.cache.defaultExpiration = d.CacheTTL) (hTTL : 0 < d.CacheTTL)
    (hclock : 0 ≤ t₁')
    (hh₁ : d.Hash (getFilters sel₁) = .ok h₁)
    (hh₂ : d.Hash (getFilters sel₂) = .ok h₂)
    (hne : cacheKey h₂ ≠ cacheKey h₁)
    (hmiss : s.cache.Get t₁ (cacheKey h₁) = none)
    (habsent : Cache.find (cacheKey h₂) s.cache.items = none)
    (hresp₁ : s.ec2api.respond s.ec2api.calls.length (getFilters sel₁) = .ok L₁)
    (hL₁ : L₁ ≠ [])
    (hresp₂ : s.ec2api.respond (s.ec2api.calls.length + 1) (getFilters sel₂) = .ok L₂)
    (hL₂ : L₂ ≠ [])
    (hlate : t₁' + d.CacheTTL < t₃)
    (hfresh : t₃ ≤ t₂' + d.CacheTTL) :
    ((s.Get d t₁ t₁' sel₁).s.Get d t₂ t₂' sel₂).s.cache.Get t₃ (cacheKey h₁) = none ∧
    (((s.Get d t₁ t₁' sel₁).s.Get d t₂ t₂' sel₂).s.Get d t₃ t₃' sel₂).ret = .ok L₂ ∧
    (((s.Get d t₁ t₁' sel₁).s.Get d t₂ t₂' sel₂).s.Get d t₃ t₃' sel₂).s.ec2api.calls
      = s.ec2api.calls ++ [getFilters sel₁, getFilters sel₂] ∧
    (((s.Get d t₁ t₁' sel₁).s.Get d t₂ t₂' sel₂).s.Get d t₃ t₃' sel₂).s.ec2api.calls.length
      = s.ec2api.calls.length + 2 := by
  have hs₁ := Get_miss_ok d s t₁ t₁' sel₁ h₁ L₁ hh₁ hmiss hresp₁ hL₁
  have hpos : s.cache.defaultExpiration > 0 := by rw [hcache]; exact hTTL
  have hmiss₂ : (s.Get d t₁ t₁' sel₁).s.cache.Get t₂ (cacheKey h₂) = none := by
    rw [hs₁]
    unfold Cache.Get
    simp only
    rw [Cache.find_SetDefault_of_ne _ _ _ _ _ hne, habsent]
  have hresp₂' : (s.Get d t₁ t₁' sel₁).s.ec2api.respond
      (s.Get d t₁ t₁' sel₁).s.ec2api.calls.length (getFilters sel₂) = .ok L₂ := by
    rw [hs₁]
    simpa using hresp₂
  have hs₂ := Get_miss_ok d (s.Get d t₁ t₁' sel₁).s t₂ t₂' sel₂ h₂ L₂ hh₂ hmiss₂ hresp₂' hL₂
  have hde : (s.Get d t₁ t₁' sel₁).s.cache.defaultExpiration = d.CacheTTL := by
    rw [Get_defaultExpiration, hcache]
  have hserve : ((s.Get d t₁ t₁' sel₁).s.Get d t₂ t₂' sel₂).s.cache.Get t₃ (cacheKey h₂)
      = some L₂ := by
    rw [hs₂]
    exact Cache.Get_SetDefault_self _ _ _ _ _ (Or.inr (by rw [hde]; exact hfresh))
  have hexpired : ((s.Get d t₁ t₁' sel₁).s.Get d t₂ t₂' sel₂).s.cache.Get t₃ (cacheKey h₁)
      = none := by
    rw [hs₂]
    unfold Cache.Get
    simp only
    rw [Cache.find_SetDefault_of_ne _ _ _ _ _ (fun e => hne e.symm), hs₁]
    simp only
    rw [Cache.find_SetDefault_self, if_pos hpos, hcache]
    have h1 : t₁' + d.CacheTTL > 0 := by omega
    simp [Item.Expired, h1, hlate]
  have h3 := Get_of_cache_Get_some d ((s.Get d t₁ t₁' sel₁).s.Get d t₂ t₂' sel₂).s t₃ t₃'
    sel₂ h₂ L₂ hh₂ hserve
  have hcalls : (((s.Get d t₁ t₁' sel₁).s.Get d t₂ t₂' sel₂).s.Get d t₃ t₃' sel₂).s.ec2api.calls
      = s.ec2api.calls ++ [getFilters sel₁, getFilters sel₂] := by
    rw [h3.2, hs₂, hs₁]
    simp
  refine ⟨hexpired, h3.1, hcalls, ?_⟩
  rw [hcalls]
  simp

theorem Get_after_ttl_other_order_served_from_cache_witness :
    ((((NewSubnetProvider sampleDeps numberedEC2).Get sampleDeps 100 101
        [("env", "prod"), ("tier", "private")]).s.Get sampleDeps 30000000000 30000000001
        [("tier", "private"), ("env", "prod")]).s.Get sampleDeps 60000000102 60000000103
        [("tier", "private"), ("env", "prod")]).ret
      = .ok [{ SubnetId := some "subnet-1", AvailabilityZone := some "us-west-2a" }] ∧
    ((((NewSubnetProvider sampleDeps numberedEC2).Get sampleDeps 100 101
        [("env", "prod"), ("tier", "private")]).s.Get sampleDeps 30000000000 30000000001
        [("tier", "private"), ("env", "prod")]).s.Get sampleDeps 60000000102 60000000103
        [("tier", "private"), ("env", "prod")]).s.ec2api.calls.length = 2 ∧
    (101 : Int) + sampleDeps.CacheTTL < 60000000102 :=
  have h := Get_after_ttl_other_order_served_from_cache sampleDeps
    (NewSubnetProvider sampleDeps numberedEC2) 100 101 30000000000 30000000001
    60000000102 60000000103
    [("env", "prod"), ("tier", "private")] [("tier", "private"), ("env", "prod")]
    29330 32540
    [{ SubnetId := some "subnet-0", AvailabilityZone := some "us-west-2a" }]
    [{ SubnetId := some "subnet-1", AvailabilityZone := some "us-west-2a" }]
    (List.Perm.swap _ _ _) (by decide) (by decide) (by decide) rfl rfl (by decide)
    (by decide) (by decide) rfl (by decide) rfl (by decide) (by decide) (by decide)
  ⟨h.2.1, h.2.2.2, by decide⟩

end Karpenter
